import Mathlib

/-!
# Verification of the AI council orchestration core (`ai_council.py`)

A shallow embedding of the council-orchestration logic: personas
(`Agent`), bounded conversation memory (`ConversationMemory`), answer
collection (`collect`), judge-verdict interpretation
(`parse_winning_agent`), the full round (`run_council`) and the
elimination/replacement policy (`maybe_eliminate_and_replace`).

The Inference Gateway (`call_ollama` in the source) is an external
collaborator; it is modelled as an oracle function `Gateway` returning
either a response text or a typed failure.  Python's in-place mutation
of `Agent` objects is modelled by explicit state passing: operations
return the updated roster, and on an exception the partially updated
roster escapes together with the error, exactly as the mutations
already performed survive a propagating Python exception.
-/

set_option maxRecDepth 100000

namespace AICouncil

/-- Errors a round can raise.  `inferenceError` stands for the request
exception raised by `call_ollama`; `stopIteration` and `keyError` model
the Python exceptions reachable from `run_council`'s fallback and dict
lookup on degenerate inputs. -/
inductive PyErr where
  | inferenceError : PyErr
  | stopIteration : PyErr
  | keyError : PyErr
deriving DecidableEq

/-- `Agent` dataclass: one council member and its performance stats. -/
structure Agent where
  name : String
  role : String
  system_prompt : String
  wins : Nat
  total_answers : Nat
deriving DecidableEq

/-- Creation with the dataclass defaults `wins = 0`, `total_answers = 0`. -/
def Agent.fresh (name role system_prompt : String) : Agent :=
  ⟨name, role, system_prompt, 0, 0⟩

/-- `ConversationMemory`: bounded log of `(user_text, assistant_text)` turns. -/
structure ConversationMemory where
  max_turns : Nat
  turns : List (String × String)
deriving DecidableEq

/-- Python's `xs[-k:]` slice: for `k = 0` it is `xs[0:]`, i.e. the whole
list, not the empty suffix; for `k ≥ 1` it is the last `min k |xs|`
elements. -/
def sliceLast (xs : List α) (k : Nat) : List α :=
  if k = 0 then xs else xs.drop (xs.length - k)

/-- `ConversationMemory.add_turn`: append a turn, then keep only the most
recent `max_turns` via the slice `self.turns[-self.max_turns:]`. -/
def ConversationMemory.add_turn (m : ConversationMemory) (user_text assistant_text : String) :
    ConversationMemory :=
  let ts := m.turns ++ [(user_text, assistant_text)]
  if ts.length > m.max_turns then { m with turns := sliceLast ts m.max_turns }
  else { m with turns := ts }

/-- Chat messages, as `(role, content)` pairs. -/
abbrev Msg := String × String

/-- Turn pairs flattened into `user, assistant, user, assistant, ...` messages. -/
def pairMessages : List (String × String) → List Msg
  | [] => []
  | (u, a) :: rest => ("user", u) :: ("assistant", a) :: pairMessages rest

/-- `ConversationMemory.to_messages`. -/
def ConversationMemory.to_messages (m : ConversationMemory) : List Msg :=
  pairMessages m.turns

/-- The Inference Gateway capability (`call_ollama` abstracted): system
instruction, user instruction and prior-turn context produce a trimmed
response text or a typed failure. -/
abbrev Gateway := String → String → List Msg → Except PyErr String

/-- Does `needle` start at the head of `haystack`? -/
def charsStartWith : List Char → List Char → Bool
  | [], _ => true
  | _ :: _, [] => false
  | a :: as, b :: bs => a == b && charsStartWith as bs

/-- Does `needle` occur as a contiguous run inside `haystack`?
(Python's `needle in haystack` on strings.) -/
def charsOccur (needle : List Char) : List Char → Bool
  | [] => charsStartWith needle []
  | c :: cs => charsStartWith needle (c :: cs) || charsOccur needle cs

/-- Python's substring test `needle in haystack`. -/
def strOccurs (needle haystack : String) : Bool :=
  charsOccur needle.toList haystack.toList

/-- Leading whitespace removed. -/
def dropLeadingWs : List Char → List Char
  | [] => []
  | c :: cs => if c.isWhitespace then dropLeadingWs cs else c :: cs

/-- Python's `str.strip()`: leading and trailing whitespace removed. -/
def pyStrip (s : String) : String :=
  ⟨(dropLeadingWs (dropLeadingWs s.data).reverse).reverse⟩

/-- Python's `str.lower()`: character-wise lower-casing. -/
def pyLower (s : String) : String := ⟨s.data.map Char.toLower⟩

/-- `parse_winning_agent`: strip and lower-case the judge's raw output
(`judge_output.strip().lower()`) and return the first agent name, in
iteration order, whose lower-cased form occurs as a substring; `none` if
no name occurs. -/
def parse_winning_agent (judge_output : String) (agent_names : List String) : Option String :=
  let raw := pyLower (pyStrip judge_output)
  agent_names.find? (fun name => strOccurs (pyLower name) raw)

/-- The persona-aware framing of the question built inside `ask_agent`. -/
def agent_prompt (agent : Agent) (question : String) : String :=
  "You are " ++ agent.name ++ ", a " ++ agent.role ++ " in a council of AIs.\n" ++
  "You see the recent conversation above as context. " ++
  "Answer the user's new question clearly and concisely.\n\n" ++
  "User's current question: " ++ question

/-- The single gateway invocation made by `ask_agent` for one persona. -/
def ask_call (gw : Gateway) (agent : Agent) (question : String)
    (memory : ConversationMemory) : Except PyErr String :=
  gw agent.system_prompt (agent_prompt agent question) memory.to_messages

/-- Increment of `total_answers` performed after a successful gateway call. -/
def bumpAns (a : Agent) : Agent := { a with total_answers := a.total_answers + 1 }

/-- Increment of `wins` performed on the winning persona. -/
def winBump (a : Agent) : Agent := { a with wins := a.wins + 1 }

/-- `ask_agent`: one persona answers the question given memory context; on
success its `total_answers` is incremented, on gateway failure the
exception propagates and the persona is left untouched. -/
def ask_agent (gw : Gateway) (agent : Agent) (question : String)
    (memory : ConversationMemory) : Except PyErr (String × Agent) :=
  match ask_call gw agent question memory with
  | Except.error e => Except.error e
  | Except.ok answer => Except.ok (answer, bumpAns agent)

/-- The answer-collection loop of `run_council`: each agent in roster
order is asked in turn; a failure stops the loop at once (the exception
propagates), leaving the failing agent and all later agents untouched
while earlier agents keep their `total_answers` increments. -/
def collect (gw : Gateway) (q : String) (mem : ConversationMemory) :
    List Agent → List Agent × Except PyErr (List (String × String))
  | [] => ([], Except.ok [])
  | a :: rest =>
    match ask_agent gw a q mem with
    | Except.error e => (a :: rest, Except.error e)
    | Except.ok (ans, a') =>
      match collect gw q mem rest with
      | (rest', Except.error e) => (a' :: rest', Except.error e)
      | (rest', Except.ok answers) => (a' :: rest', Except.ok ((a.name, ans) :: answers))

/-- The judge's fixed system instruction. -/
def judge_system : String :=
  "You are an impartial judge in an AI council.\n" ++
  "You receive a question and several candidate answers from different agents.\n" ++
  "Your task is to decide which answer is BEST overall.\n" ++
  "Rules:\n" ++
  "- Consider correctness, clarity, depth, and usefulness.\n" ++
  "- Respond ONLY with the agent's name, nothing else.\n" ++
  "- Do not explain your reasoning, do not add extra words."

/-- `build_judge_prompt`: the question followed by every answer labelled
by its agent, then the final selection instruction. -/
def build_judge_prompt (question : String) (answers : List (String × String)) : String :=
  let base := "Question:\n" ++ question ++ "\n\nAnswers:\n"
  let body := answers.foldl
    (fun acc p => acc ++ "--- Agent: " ++ p.1 ++ " ---\n" ++ p.2 ++ "\n\n") base
  body ++ "Now, choose the single best answer overall.\n" ++
    "Reply with exactly the NAME of the winning agent and nothing else."

/-- The `wins` update loop: increment the first agent whose name equals
the winner's, then `break`. -/
def incrementWinFirst : List Agent → String → List Agent
  | [], _ => []
  | a :: rest, w =>
    if a.name = w then winBump a :: rest else a :: incrementWinFirst rest w

/-- A completed round's result: the answer mapping (iteration order of
insertion), the winning agent's name, and the winning answer. -/
structure RoundResult where
  answers : List (String × String)
  winner : String
  winning_answer : String
deriving DecidableEq

/-- `run_council`: collect every agent's answer (any gateway failure
propagates at once), invoke the judge without memory, interpret the
verdict with fallback to the first agent, update the winner's `wins`,
and return the round result.  The first component is the roster after
the round, including partial `total_answers` updates that survive a
propagating exception. -/
def run_council (gw : Gateway) (question : String) (council : List Agent)
    (memory : ConversationMemory) : List Agent × Except PyErr RoundResult :=
  match collect gw question memory council with
  | (council1, Except.error e) => (council1, Except.error e)
  | (council1, Except.ok answers) =>
    match gw judge_system (build_judge_prompt question answers) [] with
    | Except.error e => (council1, Except.error e)
    | Except.ok judge_output =>
      let names := answers.map Prod.fst
      match (match parse_winning_agent judge_output names with
             | some w => some w
             | none => names.head?) with
      | none => (council1, Except.error PyErr.stopIteration)
      | some w =>
        match List.lookup w answers with
        | none => (council1, Except.error PyErr.keyError)
        | some wa => (incrementWinFirst council1 w, Except.ok ⟨answers, w, wa⟩)

/-- `win_rate = agent.wins / max(1, agent.total_answers)` (exact rational
arithmetic in place of Python float division). -/
def winRate (a : Agent) : ℚ := (a.wins : ℚ) / ((max 1 a.total_answers : Nat) : ℚ)

/-- The replacement persona built for an eliminated agent `old_name`. -/
def replacementFor (old_name : String) : Agent :=
  Agent.fresh ("Trainee_" ++ old_name) "new trainee council member"
    ("You are a fresh, eager AI trainee. Be concise, accurate, and helpful. " ++
     "You try to learn from better answers and improve over time.")

/-- The scan loop of `maybe_eliminate_and_replace`: split the roster, in
iteration order, into the retained agents and the `(name, win_rate)`
pairs of the eliminated ones. -/
def elimSplit (t : Nat) (r : ℚ) : List Agent → List Agent × List (String × ℚ)
  | [] => ([], [])
  | a :: rest =>
    let p := elimSplit t r rest
    if a.total_answers < t then (a :: p.1, p.2)
    else if winRate a < r then (p.1, (a.name, winRate a) :: p.2)
    else (a :: p.1, p.2)

/-- `maybe_eliminate_and_replace(threshold_answers, min_win_rate)`:
retained agents keep their order; every eliminated agent contributes a
fresh trainee replacement appended after all retained agents. -/
def maybe_eliminate_and_replace (council : List Agent) (threshold_answers : Nat)
    (min_win_rate : ℚ) : List Agent :=
  (elimSplit threshold_answers min_win_rate council).1 ++
    (elimSplit threshold_answers min_win_rate council).2.map (fun p => replacementFor p.1)

/-- Boolean form of the retention condition of `elimSplit`. -/
def keepPred (t : Nat) (r : ℚ) (a : Agent) : Bool :=
  decide (a.total_answers < t) || !decide (winRate a < r)

/-- Boolean form of the elimination condition of `elimSplit`. -/
def elimPred (t : Nat) (r : ℚ) (a : Agent) : Bool :=
  decide (t ≤ a.total_answers) && decide (winRate a < r)

/-- `add_turn` iterated over a list of `(question, answer)` pairs. -/
def addAll (m : ConversationMemory) : List (String × String) → ConversationMemory
  | [] => m
  | (u, a) :: rest => addAll (m.add_turn u a) rest

/-! ## Conversation-memory lemmas -/

theorem sliceLast_of_pos (xs : List α) (k : Nat) (hk : 1 ≤ k) :
    sliceLast xs k = xs.drop (xs.length - k) := by
  unfold sliceLast
  rw [if_neg (by omega)]

/-- Re-truncating after an append sees through the earlier truncation:
the last `k` elements of `last-k-of-xs ++ [x]` are the last `k` elements
of `xs ++ [x]`, provided `k ≥ 1`. -/
theorem drop_last_append_last (k : Nat) (hk : 1 ≤ k) (xs : List α) (x : α) :
    (xs.drop (xs.length - k) ++ [x]).drop ((xs.drop (xs.length - k) ++ [x]).length - k)
      = (xs ++ [x]).drop ((xs ++ [x]).length - k) := by
  rcases Nat.lt_or_ge xs.length k with h | h
  · have h0 : xs.length - k = 0 := by omega
    simp [h0]
  · have hlen : (xs.drop (xs.length - k)).length = k := by
      rw [List.length_drop]; omega
    have hL : (xs.drop (xs.length - k) ++ [x]).length - k = 1 := by
      simp only [List.length_append, List.length_singleton, hlen]; omega
    have hR : (xs ++ [x]).length - k = (xs.length - k) + 1 := by
      simp only [List.length_append, List.length_singleton]; omega
    rw [hL, hR]
    rw [List.drop_append_of_le_length (by omega : (xs.length - k) + 1 ≤ xs.length)]
    rw [List.drop_append_of_le_length (by omega : 1 ≤ (xs.drop (xs.length - k)).length)]
    rw [List.drop_drop]

theorem add_turn_max_turns (m : ConversationMemory) (u a : String) :
    (m.add_turn u a).max_turns = m.max_turns := by
  unfold ConversationMemory.add_turn
  dsimp only
  split <;> rfl

/-- Invariant form of the FIFO law: if the memory currently holds the
last `K` turns of some history, then after any further sequence of
`add_turn` calls it holds the last `K` turns of the extended history
(for `K ≥ 1`). -/
theorem addAll_turns (K : Nat) (hk : 1 ≤ K) :
    ∀ (l : List (String × String)) (m : ConversationMemory)
      (hist : List (String × String)),
      m.max_turns = K → m.turns = hist.drop (hist.length - K) →
      (addAll m l).turns = (hist ++ l).drop ((hist ++ l).length - K) := by
  intro l
  induction l with
  | nil => intro m hist hm ht; simpa [addAll] using ht
  | cons p rest ih =>
    intro m hist hm ht
    obtain ⟨u, a⟩ := p
    show (addAll (m.add_turn u a) rest).turns = _
    have hmax : (m.add_turn u a).max_turns = K := by rw [add_turn_max_turns, hm]
    have hturns : (m.add_turn u a).turns
        = (hist ++ [(u, a)]).drop ((hist ++ [(u, a)]).length - K) := by
      unfold ConversationMemory.add_turn
      by_cases hlen : (m.turns ++ [(u, a)]).length > m.max_turns
      · simp only [hlen, if_pos]
        rw [sliceLast_of_pos _ _ (hm ▸ hk), hm, ht]
        exact drop_last_append_last K hk hist (u, a)
      · simp only [hlen, if_neg, not_false_iff]
        have hts : (m.turns ++ [(u, a)]).length = (hist.length - (hist.length - K)) + 1 := by
          simp [ht, List.length_drop]
        have hsmall : hist.length < K := by
          by_contra hge
          push_neg at hge
          have : (m.turns ++ [(u, a)]).length = K + 1 := by omega
          omega
        have h0 : hist.length - K = 0 := by omega
        have h1 : hist.length + 1 - K = 0 := by omega
        simp [ht, h0, h1]
    have := ih (m.add_turn u a) (hist ++ [(u, a)]) hmax hturns
    rw [this, List.append_assoc]
    rfl

/-- C2, amended: the FIFO eviction law for every positive bound `K`.
Starting from a fresh memory with bound `K ≥ 1`, after any sequence of
`add_turn` calls the memory holds exactly the most recent `min(n, K)`
turns in insertion order, and never more than `K`. -/
theorem memory_fifo_law (K : Nat) (hK : 1 ≤ K) (l : List (String × String)) :
    (addAll (ConversationMemory.mk K []) l).turns = l.drop (l.length - K) ∧
    (addAll (ConversationMemory.mk K []) l).turns.length ≤ K := by
  have h := addAll_turns K hK l (ConversationMemory.mk K []) [] rfl (by simp)
  simp only [List.nil_append] at h
  refine ⟨h, ?_⟩
  rw [h, List.length_drop]
  omega

/-- C2, witness: with `K = 2`, after three `add_turn` calls the memory
holds exactly the last two turns. -/
theorem memory_fifo_law_witness :
    1 ≤ 2 ∧
    ((addAll (ConversationMemory.mk 2 [])
        [("q1", "a1"), ("q2", "a2"), ("q3", "a3")]).turns
      = [("q1", "a1"), ("q2", "a2"), ("q3", "a3")].drop
          ([("q1", "a1"), ("q2", "a2"), ("q3", "a3")].length - 2) ∧
     (addAll (ConversationMemory.mk 2 [])
        [("q1", "a1"), ("q2", "a2"), ("q3", "a3")]).turns.length ≤ 2) :=
  ⟨by decide, memory_fifo_law 2 (by decide) [("q1", "a1"), ("q2", "a2"), ("q3", "a3")]⟩

/-- C2, counterexample: with bound `K = 0` (an admissible `max_turns`
value of the constructor), a single `add_turn` leaves the memory holding
one turn, more than `K`: Python's truncation slice `turns[-0:]` keeps
the whole list, so the claimed bound fails at `K = 0`. -/
theorem memory_bound_k0_counterexample :
    ((ConversationMemory.mk 0 []).add_turn "q" "a").turns.length >
      (ConversationMemory.mk 0 []).max_turns := by decide

/-! ## Verdict-interpretation lemmas -/

/-- `List.find?` returns the element at the first index whose predicate
holds. -/
theorem find?_eq_of_first (p : α → Bool) :
    ∀ (l : List α) (i : Nat) (hi : i < l.length),
      p (l.get ⟨i, hi⟩) = true →
      (∀ j (hj : j < l.length), j < i → p (l.get ⟨j, hj⟩) = false) →
      l.find? p = some (l.get ⟨i, hi⟩) := by
  intro l
  induction l with
  | nil => intro i hi; exact absurd hi (by simp)
  | cons a t ih =>
    intro i hi hp hfirst
    cases i with
    | zero => exact List.find?_cons_of_pos _ hp
    | succ k =>
      have ha : p a = false := hfirst 0 (by simp) (Nat.succ_pos k)
      rw [List.find?_cons_of_neg _ (by simp [ha])]
      exact ih k (by simpa using hi) (by simpa using hp)
        (fun j hj hjk => by
          have := hfirst (j + 1) (by simpa using Nat.succ_lt_succ hj) (Nat.succ_lt_succ hjk)
          simpa using this)

/-- C4: verdict interpretation strips and lower-cases the raw judge
output and selects the first agent name, in the answer mapping's
iteration order, whose lower-cased form occurs as a substring; when
several names occur, the winner is the earliest-listed one, regardless
of where each occurs textually in the judge output. -/
theorem parse_winner_earliest_in_order (judge_output : String) (names : List String)
    (i : Nat) (hi : i < names.length)
    (hmatch : strOccurs (pyLower (names.get ⟨i, hi⟩)) (pyLower (pyStrip judge_output)) = true)
    (hfirst : ∀ j (hj : j < names.length), j < i →
      strOccurs (pyLower (names.get ⟨j, hj⟩)) (pyLower (pyStrip judge_output)) = false) :
    parse_winning_agent judge_output names = some (names.get ⟨i, hi⟩) :=
  find?_eq_of_first _ names i hi hmatch hfirst

/-- C4, witness: in the output `"Beta then Alpha"` both names occur, and
the winner is `"Alpha"`, the earliest in the mapping's iteration order,
even though `"Beta"` occurs first textually. -/
theorem parse_winner_earliest_in_order_witness :
    strOccurs (pyLower "Alpha") (pyLower (pyStrip "Beta then Alpha")) = true ∧
    strOccurs (pyLower "Beta") (pyLower (pyStrip "Beta then Alpha")) = true ∧
    parse_winning_agent "Beta then Alpha" ["Alpha", "Beta"] = some "Alpha" :=
  ⟨by decide, by decide,
    parse_winner_earliest_in_order "Beta then Alpha" ["Alpha", "Beta"] 0 (by decide)
      (by decide) (fun j hj hj0 => absurd hj0 (by omega))⟩

/-! ## Concrete demonstration inputs -/

/-- A demo gateway: the judge call answers `"zzz"` (which contains no
agent name); every persona call answers `"an answer"`. -/
def demoGw : Gateway := fun sys _ _ =>
  if sys = judge_system then Except.ok "zzz" else Except.ok "an answer"

/-- A demo persona with fresh counters. -/
def agentA : Agent := ⟨"Analyst", "careful analyst", "SA", 0, 0⟩

/-- A second demo persona with fresh counters. -/
def agentB : Agent := ⟨"Bold", "optimistic strategist", "SB", 0, 0⟩

/-- A fresh memory with the default bound. -/
def memEmpty : ConversationMemory := ⟨10, []⟩

/-- A demo gateway that fails exactly for the persona whose system
instruction is `"SA"` (agentA) and succeeds for everyone else,
including the judge. -/
def gwFailFirst : Gateway := fun sys _ _ =>
  if sys = "SA" then Except.error PyErr.inferenceError else Except.ok "an answer"

/-- A demo gateway for which every persona call succeeds but the judge
call fails. -/
def gwJudgeFails : Gateway := fun sys _ _ =>
  if sys = judge_system then Except.error PyErr.inferenceError else Except.ok "an answer"

/-! ## Round-orchestration lemmas -/

/-- C3: if collection succeeds with a non-empty answer mapping, the
judge call succeeds, and its output contains no persona identity, then
the round completes without error and the winner is the first persona
in the mapping's iteration order (with its answer); determinism is
inherent, `run_council` being a function of its inputs. -/
theorem judge_no_identity_fallback
    (gw : Gateway) (q : String) (c : List Agent) (mem : ConversationMemory)
    (c1 : List Agent) (n0 ans0 : String) (rest : List (String × String)) (jo : String)
    (hcol : collect gw q mem c = (c1, Except.ok ((n0, ans0) :: rest)))
    (hjudge : gw judge_system (build_judge_prompt q ((n0, ans0) :: rest)) [] = Except.ok jo)
    (hnone : parse_winning_agent jo (((n0, ans0) :: rest).map Prod.fst) = none) :
    (run_council gw q c mem).2 = Except.ok ⟨(n0, ans0) :: rest, n0, ans0⟩ := by
  unfold run_council
  rw [hcol]
  dsimp only
  rw [hjudge]
  dsimp only
  rw [hnone]
  simp [List.lookup]

/-- C3, witness: both personas answer, the judge replies `"zzz"`
(containing no identity), and the winner is the first-listed persona. -/
theorem judge_no_identity_fallback_witness :
    parse_winning_agent "zzz" ["Analyst", "Bold"] = none ∧
    (run_council demoGw "q" [agentA, agentB] memEmpty).2
      = Except.ok ⟨[("Analyst", "an answer"), ("Bold", "an answer")], "Analyst", "an answer"⟩ :=
  ⟨by decide,
    judge_no_identity_fallback demoGw "q" [agentA, agentB] memEmpty
      [bumpAns agentA, bumpAns agentB] "Analyst" "an answer" [("Bold", "an answer")] "zzz"
      rfl rfl (by decide)⟩

theorem ask_agent_ok (gw : Gateway) (a : Agent) (q : String) (mem : ConversationMemory)
    (ans : String) (a' : Agent) (h : ask_agent gw a q mem = Except.ok (ans, a')) :
    ask_call gw a q mem = Except.ok ans ∧ a' = bumpAns a := by
  unfold ask_agent at h
  cases hc : ask_call gw a q mem <;> rw [hc] at h <;> simp_all

theorem ask_agent_error (gw : Gateway) (a : Agent) (q : String) (mem : ConversationMemory)
    (e : PyErr) : ask_agent gw a q mem = Except.error e ↔ ask_call gw a q mem = Except.error e := by
  unfold ask_agent
  cases hc : ask_call gw a q mem <;> simp

theorem collect_length (gw : Gateway) (q : String) (mem : ConversationMemory) :
    ∀ c : List Agent, ((collect gw q mem c).1).length = c.length := by
  intro c
  induction c with
  | nil => rfl
  | cons a rest ih =>
    unfold collect
    cases hask : ask_agent gw a q mem with
    | error e => simp
    | ok p =>
      obtain ⟨ans, a'⟩ := p
      dsimp only
      rcases hre : collect gw q mem rest with ⟨rest', r⟩
      rw [hre] at ih
      cases r <;> simpa using ih

/-- Pointwise behaviour of the collection loop on the roster, on both
the success and the failure path: every agent is either untouched or
has exactly its `total_answers` incremented, and an agent whose gateway
call fails is untouched. -/
theorem collect_get? (gw : Gateway) (q : String) (mem : ConversationMemory) :
    ∀ (c : List Agent) (i : Nat) (a : Agent), c.get? i = some a →
      (((collect gw q mem c).1).get? i = some a ∨
       ((collect gw q mem c).1).get? i = some (bumpAns a)) ∧
      (∀ e, ask_call gw a q mem = Except.error e →
        ((collect gw q mem c).1).get? i = some a) := by
  intro c
  induction c with
  | nil => intro i a h; simp at h
  | cons hd rest ih =>
    intro i a hget
    cases hask : ask_agent gw hd q mem with
    | error e =>
      have hc : (collect gw q mem (hd :: rest)).1 = hd :: rest := by
        unfold collect; rw [hask]
      rw [hc]
      exact ⟨Or.inl hget, fun _ _ => hget⟩
    | ok p =>
      obtain ⟨ans, a'⟩ := p
      obtain ⟨hcall, ha'⟩ := ask_agent_ok gw hd q mem ans a' hask
      rcases hre : collect gw q mem rest with ⟨rest', r⟩
      have hc : (collect gw q mem (hd :: rest)).1 = a' :: rest' := by
        unfold collect
        rw [hask, hre]
        cases r <;> rfl
      rw [hc]
      cases i with
      | zero =>
        simp only [List.get?_cons_zero] at hget ⊢
        injection hget with hda
        subst hda
        subst ha'
        refine ⟨Or.inr rfl, ?_⟩
        intro e he
        rw [hcall] at he
        cases he
      | succ k =>
        simp only [List.get?_cons_succ] at hget ⊢
        have hres := ih k a hget
        rw [hre] at hres
        exact hres

/-- C1, amended: when the Inference Gateway fails for a persona during
answer collection, the failure propagates and the whole round aborts
with that error before judging; no persona's `wins` changes, each
persona is at most `total_answers`-incremented, and a persona whose
gateway call failed receives no `total_answers` increment.  The round
never proceeds with a partial answer set, and no `NoAnswersError`
exists. -/
theorem collection_failure_aborts (gw : Gateway) (q : String) (mem : ConversationMemory)
    (c : List Agent) (e : PyErr)
    (hfail : (collect gw q mem c).2 = Except.error e) :
    run_council gw q c mem = ((collect gw q mem c).1, Except.error e) ∧
    ((collect gw q mem c).1).length = c.length ∧
    (∀ (i : Nat) (a : Agent), c.get? i = some a →
      (∃ b, ((collect gw q mem c).1).get? i = some b ∧ b.wins = a.wins ∧
        (b = a ∨ b = bumpAns a)) ∧
      (∀ e2, ask_call gw a q mem = Except.error e2 →
        ((collect gw q mem c).1).get? i = some a)) := by
  refine ⟨?_, collect_length gw q mem c, ?_⟩
  · unfold run_council
    rcases hco : collect gw q mem c with ⟨c1, r⟩
    rw [hco] at hfail
    dsimp only at hfail ⊢
    rw [hfail]
  · intro i a hget
    obtain ⟨hdisj, hfailcase⟩ := collect_get? gw q mem c i a hget
    refine ⟨?_, hfailcase⟩
    rcases hdisj with h | h
    · exact ⟨a, h, rfl, Or.inl rfl⟩
    · exact ⟨bumpAns a, h, rfl, Or.inr rfl⟩

/-- C1, witness: with the first persona's gateway call failing, the
round aborts with the propagated error and the partially updated
roster. -/
theorem collection_failure_aborts_witness :
    (collect gwFailFirst "q" memEmpty [agentA, agentB]).2 = Except.error PyErr.inferenceError ∧
    run_council gwFailFirst "q" [agentA, agentB] memEmpty
      = ((collect gwFailFirst "q" memEmpty [agentA, agentB]).1,
         Except.error PyErr.inferenceError) :=
  ⟨rfl,
    (collection_failure_aborts gwFailFirst "q" memEmpty [agentA, agentB]
      PyErr.inferenceError rfl).1⟩

/-- C1, counterexample: the gateway fails for the first persona while
the second persona's call succeeds, yet the round does not proceed with
the remaining personas — `run_council` propagates the inference error
(and no `NoAnswersError` is involved anywhere in the code). -/
theorem collection_failure_counterexample :
    ask_call gwFailFirst agentB "q" memEmpty = Except.ok "an answer" ∧
    (run_council gwFailFirst "q" [agentA, agentB] memEmpty).2
      = Except.error PyErr.inferenceError :=
  ⟨rfl, rfl⟩

/-- When collection succeeds, every agent's `total_answers` was
incremented exactly once and the answer mapping's keys are the agents'
names in roster order. -/
theorem collect_ok_spec (gw : Gateway) (q : String) (mem : ConversationMemory) :
    ∀ (c c1 : List Agent) (answers : List (String × String)),
      collect gw q mem c = (c1, Except.ok answers) →
      c1 = c.map bumpAns ∧ answers.map Prod.fst = c.map Agent.name := by
  intro c
  induction c with
  | nil =>
    intro c1 answers h
    unfold collect at h
    injection h with h1 h2
    injection h2 with h2
    subst h1
    subst h2
    exact ⟨rfl, rfl⟩
  | cons hd rest ih =>
    intro c1 answers h
    unfold collect at h
    cases hask : ask_agent gw hd q mem with
    | error e => rw [hask] at h; cases h
    | ok p =>
      obtain ⟨ans, a'⟩ := p
      obtain ⟨hcall, ha'⟩ := ask_agent_ok gw hd q mem ans a' hask
      rw [hask] at h
      rcases hre : collect gw q mem rest with ⟨rest', r⟩
      rw [hre] at h
      cases r with
      | error e => cases h
      | ok answers' =>
        dsimp only at h
        injection h with h1 h2
        injection h2 with h2
        obtain ⟨hr1, hr2⟩ := ih rest' answers' hre
        subst h1
        subst h2
        subst ha'
        simp [hr1, hr2]

/-- C5, amended: a judge-invocation failure propagates and aborts the
round (no `wins` update, no memory write), but the `total_answers`
increments of the collection phase have already happened: the roster
returned with the error is exactly the input roster with every agent's
`total_answers` incremented by one and `wins` unchanged. -/
theorem judge_failure_aborts (gw : Gateway) (q : String) (mem : ConversationMemory)
    (c c1 : List Agent) (answers : List (String × String)) (e : PyErr)
    (hcol : collect gw q mem c = (c1, Except.ok answers))
    (hjudge : gw judge_system (build_judge_prompt q answers) [] = Except.error e) :
    run_council gw q c mem = (c.map bumpAns, Except.error e) ∧
    (∀ a : Agent, (bumpAns a).wins = a.wins ∧
      (bumpAns a).total_answers = a.total_answers + 1) := by
  have hspec := collect_ok_spec gw q mem c c1 answers hcol
  refine ⟨?_, fun a => ⟨rfl, rfl⟩⟩
  unfold run_council
  rw [hcol]
  dsimp only
  rw [hjudge, hspec.1]

/-- C5, witness: both personas answer, the judge call fails, and the
round aborts with the error over the `total_answers`-bumped roster. -/
theorem judge_failure_aborts_witness :
    collect gwJudgeFails "q" memEmpty [agentA, agentB]
      = ([bumpAns agentA, bumpAns agentB],
         Except.ok [("Analyst", "an answer"), ("Bold", "an answer")]) ∧
    run_council gwJudgeFails "q" [agentA, agentB] memEmpty
      = ([agentA, agentB].map bumpAns, Except.error PyErr.inferenceError) :=
  ⟨rfl,
    (judge_failure_aborts gwJudgeFails "q" memEmpty [agentA, agentB]
      [bumpAns agentA, bumpAns agentB]
      [("Analyst", "an answer"), ("Bold", "an answer")] PyErr.inferenceError rfl rfl).1⟩

/-- C5, counterexample: with one persona whose gateway call succeeds
and a failing judge call, the error propagates — but the persona's
`total_answers` counter has already been updated from 0 to 1, contrary
to the claim that no counters have been updated when the error
propagates. -/
theorem judge_failure_counters_counterexample :
    run_council gwJudgeFails "q" [agentA] memEmpty
      = ([⟨"Analyst", "careful analyst", "SA", 0, 1⟩], Except.error PyErr.inferenceError) ∧
    agentA.total_answers = 0 :=
  ⟨rfl, rfl⟩

theorem head?_mem : ∀ (l : List α) (a : α), l.head? = some a → a ∈ l := by
  intro l a h
  cases l with
  | nil => cases h
  | cons x t =>
    injection h with h
    subst h
    exact List.mem_cons_self x t

theorem incrementWinFirst_length : ∀ (l : List Agent) (w : String),
    (incrementWinFirst l w).length = l.length := by
  intro l w
  induction l with
  | nil => rfl
  | cons a rest ih =>
    unfold incrementWinFirst
    by_cases h : a.name = w <;> simp [h, ih]

/-- With unique names, the `wins` update loop increments exactly the
agents whose name equals the winner's (at most one), pointwise. -/
theorem incrementWinFirst_get? (w : String) :
    ∀ (l : List Agent), (l.map Agent.name).Nodup →
      ∀ (i : Nat) (a : Agent), l.get? i = some a →
        (incrementWinFirst l w).get? i
          = some (if a.name = w then winBump a else a) := by
  intro l
  induction l with
  | nil => intro _ i a h; cases h
  | cons hd rest ih =>
    intro hnd i a hget
    simp only [List.map_cons, List.nodup_cons] at hnd
    unfold incrementWinFirst
    by_cases hh : hd.name = w
    · rw [if_pos hh]
      cases i with
      | zero =>
        simp only [List.get?_cons_zero] at hget ⊢
        injection hget with h
        subst h
        rw [if_pos hh]
      | succ k =>
        simp only [List.get?_cons_succ] at hget ⊢
        have hmem : a ∈ rest := List.get?_mem hget
        have hne : a.name ≠ w := by
          intro haw
          apply hnd.1
          rw [hh, ← haw]
          exact List.mem_map_of_mem Agent.name hmem
        rw [if_neg hne]
        exact hget
    · rw [if_neg hh]
      cases i with
      | zero =>
        simp only [List.get?_cons_zero] at hget ⊢
        injection hget with h
        subst h
        rw [if_neg hh]
      | succ k =>
        simp only [List.get?_cons_succ] at hget ⊢
        exact ih hnd.2 k a hget

/-- Anatomy of a successfully completed round: collection succeeded on
every persona, the judge call succeeded, the winner is one of the
answer mapping's keys, and the final roster is the bumped roster with
the winner's `wins` update applied. -/
theorem run_council_ok_spec (gw : Gateway) (q : String) (mem : ConversationMemory)
    (c : List Agent) (res : RoundResult)
    (hok : (run_council gw q c mem).2 = Except.ok res) :
    ∃ answers jo,
      collect gw q mem c = (c.map bumpAns, Except.ok answers) ∧
      gw judge_system (build_judge_prompt q answers) [] = Except.ok jo ∧
      res.answers = answers ∧
      res.winner ∈ answers.map Prod.fst ∧
      run_council gw q c mem
        = (incrementWinFirst (c.map bumpAns) res.winner, Except.ok res) := by
  unfold run_council at hok ⊢
  rcases hco : collect gw q mem c with ⟨c1, r⟩
  cases r with
  | error e => rw [hco] at hok; dsimp only at hok; cases hok
  | ok answers =>
    have hc1 : c1 = c.map bumpAns := (collect_ok_spec gw q mem c c1 answers hco).1
    subst hc1
    rw [hco] at hok
    dsimp only at hok ⊢
    cases hj : gw judge_system (build_judge_prompt q answers) [] with
    | error e => rw [hj] at hok; dsimp only at hok; cases hok
    | ok jo =>
      rw [hj] at hok
      dsimp only at hok ⊢
      cases hw : (match parse_winning_agent jo (answers.map Prod.fst) with
                  | some w => some w
                  | none => (answers.map Prod.fst).head?) with
      | none => rw [hw] at hok; dsimp only at hok; cases hok
      | some w =>
        rw [hw] at hok
        dsimp only at hok ⊢
        cases hlk : List.lookup w answers with
        | none => rw [hlk] at hok; dsimp only at hok; cases hok
        | some wa =>
          rw [hlk] at hok
          dsimp only at hok ⊢
          injection hok with hok
          subst hok
          have hwmem : w ∈ answers.map Prod.fst := by
            cases hp : parse_winning_agent jo (answers.map Prod.fst) with
            | some w' =>
              rw [hp] at hw
              injection hw with hw
              subst hw
              exact List.mem_of_find?_eq_some hp
            | none =>
              rw [hp] at hw
              exact head?_mem _ _ hw
          exact ⟨answers, jo, rfl, hj, rfl, hwmem, rfl⟩

/-- C6: after a round that completes with a winner (unique names
assumed, the Registry invariant), every persona answered and has its
`total_answers` incremented by exactly one, and exactly the personas
whose name equals the winner's — precisely one, since names are unique
and the winner is drawn from them — additionally have `wins`
incremented by one. -/
theorem winning_round_counters (gw : Gateway) (q : String) (mem : ConversationMemory)
    (c : List Agent) (res : RoundResult)
    (hnd : (c.map Agent.name).Nodup)
    (hok : (run_council gw q c mem).2 = Except.ok res) :
    res.answers.map Prod.fst = c.map Agent.name ∧
    res.winner ∈ c.map Agent.name ∧
    (∀ (i : Nat) (a : Agent), c.get? i = some a →
      ((run_council gw q c mem).1).get? i
        = some (if a.name = res.winner then winBump (bumpAns a) else bumpAns a)) := by
  obtain ⟨answers, jo, hco, hj, hresans, hwmem, hrun⟩ :=
    run_council_ok_spec gw q mem c res hok
  have hnames : answers.map Prod.fst = c.map Agent.name :=
    (collect_ok_spec gw q mem c (c.map bumpAns) answers hco).2
  refine ⟨by rw [hresans, hnames], by rw [← hnames]; exact hwmem, ?_⟩
  intro i a hget
  rw [hrun]
  dsimp only
  have hndb : ((c.map bumpAns).map Agent.name).Nodup := by
    rw [List.map_map]
    exact hnd
  have hgetb : (c.map bumpAns).get? i = some (bumpAns a) := by
    rw [List.get?_map, hget]
    rfl
  have := incrementWinFirst_get? res.winner (c.map bumpAns) hndb i (bumpAns a) hgetb
  rw [this]
  rfl

/-- C6, witness: two personas with distinct names both answer, the
judge output names nobody, so the fallback winner is the first persona;
its counters go from `(0, 0)` to `(1, 1)` while the other persona only
gets the `total_answers` increment. -/
theorem winning_round_counters_witness :
    ([agentA, agentB].map Agent.name).Nodup ∧
    (run_council demoGw "q" [agentA, agentB] memEmpty).2
      = Except.ok ⟨[("Analyst", "an answer"), ("Bold", "an answer")], "Analyst", "an answer"⟩ ∧
    ((⟨[("Analyst", "an answer"), ("Bold", "an answer")], "Analyst", "an answer"⟩ :
        RoundResult).answers.map Prod.fst = [agentA, agentB].map Agent.name ∧
      (⟨[("Analyst", "an answer"), ("Bold", "an answer")], "Analyst", "an answer"⟩ :
        RoundResult).winner ∈ [agentA, agentB].map Agent.name ∧
      (∀ (i : Nat) (a : Agent), [agentA, agentB].get? i = some a →
        ((run_council demoGw "q" [agentA, agentB] memEmpty).1).get? i
          = some (if a.name = (⟨[("Analyst", "an answer"), ("Bold", "an answer")],
              "Analyst", "an answer"⟩ : RoundResult).winner
            then winBump (bumpAns a) else bumpAns a))) :=
  ⟨by decide, rfl,
    winning_round_counters demoGw "q" memEmpty [agentA, agentB]
      ⟨[("Analyst", "an answer"), ("Bold", "an answer")], "Analyst", "an answer"⟩
      (by decide) rfl⟩

/-! ## Elimination-policy lemmas -/

theorem keepPred_of_below (t : Nat) (r : ℚ) (a : Agent) (h : a.total_answers < t) :
    keepPred t r a = true := by
  simp [keepPred, h]

theorem elimPred_of_bad (t : Nat) (r : ℚ) (a : Agent) (h1 : t ≤ a.total_answers)
    (h2 : winRate a < r) : elimPred t r a = true := by
  simp [elimPred, h1, h2]

/-- The scan loop characterised by filters over the original roster:
retained agents are exactly those below the sample threshold or at a
win rate not below the cutoff, in original order; the eliminated pairs
are the remaining agents, also in original order. -/
theorem elimSplit_eq_filter (t : Nat) (r : ℚ) :
    ∀ c : List Agent,
      (elimSplit t r c).1 = c.filter (keepPred t r) ∧
      (elimSplit t r c).2 = (c.filter (elimPred t r)).map (fun a => (a.name, winRate a)) := by
  intro c
  induction c with
  | nil => exact ⟨rfl, rfl⟩
  | cons a rest ih =>
    unfold elimSplit
    by_cases h1 : a.total_answers < t
    · rw [if_pos h1]
      have hk : keepPred t r a = true := keepPred_of_below t r a h1
      have he : elimPred t r a = false := by simp [elimPred, h1, Nat.not_le.mpr h1]
      constructor
      · rw [List.filter_cons_of_pos hk]
        exact congrArg (a :: ·) ih.1
      · rw [List.filter_cons_of_neg (by simp [he])]
        exact ih.2
    · rw [if_neg h1]
      have h1' : t ≤ a.total_answers := Nat.le_of_not_lt h1
      by_cases h2 : winRate a < r
      · rw [if_pos h2]
        have hk : keepPred t r a = false := by simp [keepPred, h1, h2]
        have he : elimPred t r a = true := elimPred_of_bad t r a h1' h2
        constructor
        · rw [List.filter_cons_of_neg (by simp [hk])]
          exact ih.1
        · rw [List.filter_cons_of_pos he, List.map_cons]
          exact congrArg ((a.name, winRate a) :: ·) ih.2
      · rw [if_neg h2]
        have hk : keepPred t r a = true := by simp [keepPred, h2]
        have he : elimPred t r a = false := by simp [elimPred, h2]
        constructor
        · rw [List.filter_cons_of_pos hk]
          exact congrArg (a :: ·) ih.1
        · rw [List.filter_cons_of_neg (by simp [he])]
          exact ih.2

/-- The elimination pass as one equation: retained agents in original
order, then one fresh trainee per eliminated agent, in elimination
order. -/
theorem maybe_eliminate_characterization (c : List Agent) (t : Nat) (r : ℚ) :
    maybe_eliminate_and_replace c t r =
      c.filter (keepPred t r) ++
        (c.filter (elimPred t r)).map (fun a => replacementFor a.name) := by
  unfold maybe_eliminate_and_replace
  rw [(elimSplit_eq_filter t r c).1, (elimSplit_eq_filter t r c).2, List.map_map]
  rfl

/-- C10: the elimination operation preserves the relative order of all
retained personas and appends the replacement personas after all
retained ones, in the order their predecessors were eliminated — the
new roster is the kept filter of the roster followed by the mapped
eliminated filter. -/
theorem elimination_order (c : List Agent) (t : Nat) (r : ℚ) :
    maybe_eliminate_and_replace c t r =
      c.filter (keepPred t r) ++
        (c.filter (elimPred t r)).map (fun a => replacementFor a.name) :=
  maybe_eliminate_characterization c t r

/-- C7: the elimination operation retains (unchanged, by membership of
the identical record) every persona below the sample threshold
regardless of win rate, and for every persona at/above the threshold
with win rate strictly below the cutoff puts into the new roster a
fresh replacement with zero counters, the generic trainee role and
instruction, and the identity `"Trainee_" ++` the eliminated
persona's identity. -/
theorem elimination_retention_replacement (c : List Agent) (t : Nat) (r : ℚ)
    (a : Agent) (ha : a ∈ c) :
    (a.total_answers < t → a ∈ maybe_eliminate_and_replace c t r) ∧
    (t ≤ a.total_answers → winRate a < r →
      replacementFor a.name ∈ maybe_eliminate_and_replace c t r ∧
      (replacementFor a.name).wins = 0 ∧
      (replacementFor a.name).total_answers = 0 ∧
      (replacementFor a.name).role = "new trainee council member" ∧
      (replacementFor a.name).system_prompt =
        ("You are a fresh, eager AI trainee. Be concise, accurate, and helpful. " ++
         "You try to learn from better answers and improve over time.") ∧
      (replacementFor a.name).name = "Trainee_" ++ a.name) := by
  rw [maybe_eliminate_characterization]
  constructor
  · intro hlt
    exact List.mem_append_left _
      (List.mem_filter.mpr ⟨ha, keepPred_of_below t r a hlt⟩)
  · intro hge hlt
    refine ⟨?_, rfl, rfl, rfl, rfl, rfl⟩
    exact List.mem_append_right _
      (List.mem_map.mpr ⟨a, List.mem_filter.mpr ⟨ha, elimPred_of_bad t r a hge hlt⟩, rfl⟩)

/-- C7, witness: persona `E` (9 answers, below the threshold of 10, win
rate 0) is retained; persona `D` (1 win in 12 answers, rate 1/12 < 1/10)
is replaced by the fresh trainee `Trainee_D`. -/
theorem elimination_retention_replacement_witness :
    (⟨"E", "r", "s", 0, 9⟩ : Agent)
      ∈ maybe_eliminate_and_replace
          [⟨"E", "r", "s", 0, 9⟩, ⟨"D", "r", "s", 1, 12⟩] 10 (1 / 10) ∧
    replacementFor "D"
      ∈ maybe_eliminate_and_replace
          [⟨"E", "r", "s", 0, 9⟩, ⟨"D", "r", "s", 1, 12⟩] 10 (1 / 10) ∧
    (replacementFor "D").wins = 0 ∧
    (replacementFor "D").total_answers = 0 ∧
    (replacementFor "D").name = "Trainee_" ++ "D" :=
  ⟨(elimination_retention_replacement
      [⟨"E", "r", "s", 0, 9⟩, ⟨"D", "r", "s", 1, 12⟩] 10 (1 / 10)
      ⟨"E", "r", "s", 0, 9⟩ (by simp)).1 (by norm_num),
   by
    have h := (elimination_retention_replacement
      [⟨"E", "r", "s", 0, 9⟩, ⟨"D", "r", "s", 1, 12⟩] 10 (1 / 10)
      ⟨"D", "r", "s", 1, 12⟩ (by simp)).2 (by norm_num)
      (by norm_num [winRate])
    exact ⟨h.1, h.2.1, h.2.2.1, h.2.2.2.2.2⟩⟩

/-- C9: the win-rate computation divides by `max 1 total_answers`, so it
is total (the denominator is never zero), and a persona with zero
`total_answers` that reaches the evaluation step — which under the
`wins ≤ total_answers` invariant has zero wins — evaluates to win rate
0. -/
theorem winRate_total_and_zero (a : Agent) (hinv : a.wins ≤ a.total_answers) :
    ((max 1 a.total_answers : Nat) : ℚ) ≠ 0 ∧
    (a.total_answers = 0 → winRate a = 0) := by
  constructor
  · exact Nat.cast_ne_zero.mpr (by omega)
  · intro h0
    have hw : a.wins = 0 := by omega
    simp [winRate, hw]

/-- C9, witness: a fresh persona with zero counters has a nonzero
denominator and win rate 0. -/
theorem winRate_total_and_zero_witness :
    (⟨"Z", "r", "s", 0, 0⟩ : Agent).wins ≤ (⟨"Z", "r", "s", 0, 0⟩ : Agent).total_answers ∧
    (((max 1 (⟨"Z", "r", "s", 0, 0⟩ : Agent).total_answers : Nat) : ℚ) ≠ 0 ∧
     ((⟨"Z", "r", "s", 0, 0⟩ : Agent).total_answers = 0 →
       winRate ⟨"Z", "r", "s", 0, 0⟩ = 0)) :=
  ⟨by decide, winRate_total_and_zero ⟨"Z", "r", "s", 0, 0⟩ (by decide)⟩

/-! ## Roster membership and the counters invariant -/

theorem collect_mem (gw : Gateway) (q : String) (mem : ConversationMemory) :
    ∀ (c : List Agent) (a : Agent), a ∈ (collect gw q mem c).1 →
      a ∈ c ∨ ∃ b, b ∈ c ∧ a = bumpAns b := by
  intro c
  induction c with
  | nil => intro a h; simp [collect] at h
  | cons hd rest ih =>
    intro a h
    cases hask : ask_agent gw hd q mem with
    | error e =>
      have hc : (collect gw q mem (hd :: rest)).1 = hd :: rest := by
        unfold collect; rw [hask]
      rw [hc] at h
      exact Or.inl h
    | ok p =>
      obtain ⟨ans, a'⟩ := p
      obtain ⟨hcall, ha'⟩ := ask_agent_ok gw hd q mem ans a' hask
      rcases hre : collect gw q mem rest with ⟨rest', r⟩
      have hc : (collect gw q mem (hd :: rest)).1 = a' :: rest' := by
        unfold collect
        rw [hask, hre]
        cases r <;> rfl
      rw [hc] at h
      rcases List.mem_cons.mp h with h | h
      · subst ha'
        exact Or.inr ⟨hd, List.mem_cons_self _ _, h⟩
      · rcases ih a (by rw [hre]; exact h) with h' | ⟨b, hb, hab⟩
        · exact Or.inl (List.mem_cons_of_mem _ h')
        · exact Or.inr ⟨b, List.mem_cons_of_mem _ hb, hab⟩

theorem incrementWinFirst_mem : ∀ (l : List Agent) (w : String) (a : Agent),
    a ∈ incrementWinFirst l w → a ∈ l ∨ ∃ b, b ∈ l ∧ a = winBump b := by
  intro l
  induction l with
  | nil => intro w a h; simp [incrementWinFirst] at h
  | cons hd rest ih =>
    intro w a h
    unfold incrementWinFirst at h
    by_cases hh : hd.name = w
    · rw [if_pos hh] at h
      rcases List.mem_cons.mp h with h | h
      · exact Or.inr ⟨hd, List.mem_cons_self _ _, h⟩
      · exact Or.inl (List.mem_cons_of_mem _ h)
    · rw [if_neg hh] at h
      rcases List.mem_cons.mp h with h | h
      · exact Or.inl (h ▸ List.mem_cons_self _ _)
      · rcases ih w a h with h' | ⟨b, hb, hab⟩
        · exact Or.inl (List.mem_cons_of_mem _ h')
        · exact Or.inr ⟨b, List.mem_cons_of_mem _ hb, hab⟩

/-- The roster returned by a round is either the collection-phase roster
(on any aborted round) or the fully bumped roster with the winner's
`wins` update (on a completed round). -/
theorem run_council_roster (gw : Gateway) (q : String) (c : List Agent)
    (mem : ConversationMemory) :
    (run_council gw q c mem).1 = (collect gw q mem c).1 ∨
    ((collect gw q mem c).1 = c.map bumpAns ∧
      ∃ w, (run_council gw q c mem).1 = incrementWinFirst (c.map bumpAns) w) := by
  unfold run_council
  rcases hco : collect gw q mem c with ⟨c1, r⟩
  cases r with
  | error e => exact Or.inl rfl
  | ok answers =>
    have hc1 : c1 = c.map bumpAns := (collect_ok_spec gw q mem c c1 answers hco).1
    subst hc1
    dsimp only
    cases hj : gw judge_system (build_judge_prompt q answers) [] with
    | error e => exact Or.inl rfl
    | ok jo =>
      dsimp only
      cases hw : (match parse_winning_agent jo (answers.map Prod.fst) with
                  | some w => some w
                  | none => (answers.map Prod.fst).head?) with
      | none => exact Or.inl rfl
      | some w =>
        dsimp only
        cases hlk : List.lookup w answers with
        | none => exact Or.inl rfl
        | some wa => exact Or.inr ⟨rfl, w, rfl⟩

/-- C8: the `wins ≤ total_answers` invariant holds at creation (both
counters zero) and is preserved by round execution (including aborted
rounds with partial updates) and by the elimination operation. -/
theorem counters_invariant (gw : Gateway) (q : String) (mem : ConversationMemory)
    (c : List Agent) (t : Nat) (r : ℚ)
    (h : ∀ a ∈ c, a.wins ≤ a.total_answers) :
    (∀ n ro sp, (Agent.fresh n ro sp).wins ≤ (Agent.fresh n ro sp).total_answers) ∧
    (∀ a ∈ (run_council gw q c mem).1, a.wins ≤ a.total_answers) ∧
    (∀ a ∈ maybe_eliminate_and_replace c t r, a.wins ≤ a.total_answers) := by
  refine ⟨fun n ro sp => Nat.le_refl 0, ?_, ?_⟩
  · intro a hmem
    rcases run_council_roster gw q c mem with hro | ⟨hcmap, w, hro⟩
    · rw [hro] at hmem
      rcases collect_mem gw q mem c a hmem with hin | ⟨b, hb, rfl⟩
      · exact h a hin
      · have := h b hb
        show b.wins ≤ b.total_answers + 1
        omega
    · rw [hro] at hmem
      rcases incrementWinFirst_mem (c.map bumpAns) w a hmem with hin | ⟨b, hb, rfl⟩
      · rcases List.mem_map.mp hin with ⟨b0, hb0, rfl⟩
        have := h b0 hb0
        show b0.wins ≤ b0.total_answers + 1
        omega
      · rcases List.mem_map.mp hb with ⟨b0, hb0, rfl⟩
        have := h b0 hb0
        show b0.wins + 1 ≤ b0.total_answers + 1
        omega
  · intro a hmem
    rw [maybe_eliminate_characterization] at hmem
    rcases List.mem_append.mp hmem with hin | hin
    · exact h a (List.mem_filter.mp hin).1
    · rcases List.mem_map.mp hin with ⟨b0, hb0, rfl⟩
      exact Nat.le_refl 0

/-- C8, witness: starting from two fresh personas, after the demo round
and an elimination pass the invariant holds everywhere. -/
theorem counters_invariant_witness :
    (∀ a ∈ [agentA, agentB], a.wins ≤ a.total_answers) ∧
    ((∀ n ro sp, (Agent.fresh n ro sp).wins ≤ (Agent.fresh n ro sp).total_answers) ∧
     (∀ a ∈ (run_council demoGw "q" [agentA, agentB] memEmpty).1,
        a.wins ≤ a.total_answers) ∧
     (∀ a ∈ maybe_eliminate_and_replace [agentA, agentB] 10 (1 / 10),
        a.wins ≤ a.total_answers)) :=
  ⟨by decide,
    counters_invariant demoGw "q" memEmpty [agentA, agentB] 10 (1 / 10) (by decide)⟩

end AICouncil
